import Mathlib

/-!
Verification of the rqlite restore downloader (`auto/restore/downloader.go`)
and the 7.x snapshot-directory upgrader (`snapshot` package, `Upgrade`).

The Go code is shallowly embedded: byte contents are `List Nat`, the
staging file is its contents plus a read position, the filesystem the
upgrader mutates is a flat association list from paths to entries, and the
external gzip library is abstracted as a codec with the two framing laws
the code relies on.  Local I/O (file creation, directory creation,
rename) is modelled as succeeding; the remote download and all
format-level failures (undecodable metadata, malformed compressed
streams, failed validity checks) are modelled exactly as the code handles
them.
-/

namespace Rqlite

/-- The 3-byte gzip magic prefix `0x1f 0x8b 0x08` (`gzipMagic` in
`auto/restore/downloader.go`). -/
def gzipMagic : List Nat := [0x1f, 0x8b, 0x08]

/-- Modelled from the spec: the compression codec shared by both components
(the `compress/gzip` library, external to this repository).  `compress`
produces the compressed framing of a payload; `decompress` either recovers
the whole payload (`.ok`) or fails after emitting some prefix of output
(`.error`), covering both gzip-reader construction failure and mid-stream
failure.  The two laws are the spec's framing facts: compressed output
starts with the 3-byte framing marker, and decompression inverts
compression. -/
structure GzipCodec where
  compress : List Nat → List Nat
  decompress : List Nat → Except (List Nat) (List Nat)
  compress_magic : ∀ p, (compress p).take 3 = gzipMagic
  decompress_compress : ∀ p, decompress (compress p) = .ok p

/-- A concrete codec satisfying the `GzipCodec` laws, used to instantiate
codec-generic theorems on concrete runs. -/
def toyCodec : GzipCodec where
  compress p := gzipMagic ++ p
  decompress xs := if xs.take 3 = gzipMagic then .ok (xs.drop 3) else .error []
  compress_magic p := by simp [gzipMagic]
  decompress_compress p := by simp [gzipMagic]

namespace Restore

/-- The three counters of the `downloader` stats map
(`num_downloads_ok`, `num_downloads_fail`, `download_bytes`). -/
structure Stats where
  numDownloadsOK : Nat
  numDownloadsFail : Nat
  numDownloadBytes : Nat
deriving DecidableEq, Repr

/-- The staging file: its byte contents and current read position. -/
structure StagingFile where
  data : List Nat
  pos : Nat
deriving DecidableEq, Repr

/-- Offset-addressed `WriteAt` write on file contents: bytes before
the offset are kept (zero-padded if the file is shorter than the offset,
as for a sparse file), `p` overwrites at the offset, and any bytes past
the end of `p` are kept. -/
def writeAt (data : List Nat) (off : Nat) (p : List Nat) : List Nat :=
  (data.take off ++ List.replicate (off - data.length) 0) ++ p ++ data.drop (off + p.length)

/-- One remote download modelled extensionally: the sequence of `WriteAt`
calls the storage client performs on the staging file (offset, bytes), and
whether `Download` then returns an error. -/
structure DownloadRun where
  ops : List (Nat × List Nat)
  dlErr : Bool
deriving DecidableEq, Repr

/-- The staging file and the `countingWriterAt` count after the client's
download: all offset writes applied in order, and the sum of the reported
write sizes (local writes succeed in full, so each `WriteAt` reports the
length of its buffer). -/
def runDownload (ops : List (Nat × List Nat)) : StagingFile × Nat :=
  (⟨ops.foldl (fun d op => writeAt d op.1 op.2) [], 0⟩,
   ops.foldl (fun c op => c + op.2.length) 0)

/-- Reading from the staging file (`f.Read`): reads up to `n` bytes from the current
position and advances the position by the number of bytes read. -/
def fileRead (f : StagingFile) (n : Nat) : List Nat × StagingFile :=
  let r := (f.data.drop f.pos).take n
  (r, ⟨f.data, f.pos + r.length⟩)

/-- The function `isGzip` from `auto/restore/downloader.go`: seek to the start, read up
to 3 bytes (a read that returns no bytes reports end-of-file, an error),
return `false` without the second seek when fewer than 3 bytes were read,
otherwise seek back to the start and compare the bytes with `gzipMagic`. -/
def isGzip (f : StagingFile) : Except Unit (Bool × StagingFile) :=
  let f1 : StagingFile := ⟨f.data, 0⟩
  let rd := fileRead f1 gzipMagic.length
  if rd.1.length = 0 then .error ()
  else if rd.1.length ≠ gzipMagic.length then .ok (false, rd.2)
  else .ok (decide (rd.1 = gzipMagic), ⟨f.data, 0⟩)

/-- Environment of one `Downloader.Do` call: whether creating the staging
file fails, and the remote client's behaviour. -/
structure DoEnv where
  createErr : Bool
  run : DownloadRun
deriving DecidableEq, Repr

/-- Result of one `Downloader.Do` call: whether it returned an error, the
bytes delivered to the destination sink `w`, whether the staging file was
created, whether it was removed again, and the updated counters. -/
structure DoResult where
  err : Bool
  sink : List Nat
  stagingCreated : Bool
  stagingRemoved : Bool
  stats : Stats
deriving DecidableEq, Repr

/-- The method `Downloader.Do` from `auto/restore/downloader.go`.  Every return path
spells out the two deferred actions exactly as the Go `defer`s run them:
`os.Remove` of the staging file (only once it was created) and the counter
update (ok plus byte count on a nil error, fail otherwise). -/
def Do (codec : GzipCodec) (env : DoEnv) (s : Stats) : DoResult :=
  if env.createErr then
    ⟨true, [], false, false, ⟨s.numDownloadsOK, s.numDownloadsFail + 1, s.numDownloadBytes⟩⟩
  else
    if env.run.dlErr then
      ⟨true, [], true, true, ⟨s.numDownloadsOK, s.numDownloadsFail + 1, s.numDownloadBytes⟩⟩
    else
      match isGzip (runDownload env.run.ops).1 with
      | .error _ =>
        ⟨true, [], true, true, ⟨s.numDownloadsOK, s.numDownloadsFail + 1, s.numDownloadBytes⟩⟩
      | .ok (compressed, f1) =>
        if compressed then
          match codec.decompress (f1.data.drop f1.pos) with
          | .error pfx =>
            ⟨true, pfx, true, true,
             ⟨s.numDownloadsOK, s.numDownloadsFail + 1, s.numDownloadBytes⟩⟩
          | .ok payload =>
            ⟨false, payload, true, true,
             ⟨s.numDownloadsOK + 1, s.numDownloadsFail,
              s.numDownloadBytes + (runDownload env.run.ops).2⟩⟩
        else
          ⟨false, f1.data.drop f1.pos, true, true,
           ⟨s.numDownloadsOK + 1, s.numDownloadsFail,
            s.numDownloadBytes + (runDownload env.run.ops).2⟩⟩

end Restore

namespace Snapshot

/-- Filesystem paths as lists of components; `filepath.Join` is append. -/
abbrev Path := List String

/-- The constant `v7StateFile` from the source: name of the legacy state blob. -/
def v7StateFile : String := "state.bin"

/-- Modelled from the spec: `generationsDir` (defined elsewhere in the
`snapshot` package), the "generations" container of the new layout. -/
def generationsDir : String := "generations"

/-- Modelled from the spec: `firstGeneration` (defined elsewhere in the
`snapshot` package), the id of the first generation. -/
def firstGeneration : String := "0000000001"

/-- Modelled from the spec: `baseSqliteFile` (defined elsewhere in the
`snapshot` package), the well-known name of the base state file. -/
def baseSqliteFile : String := "base-sqlite.db"

/-- Modelled from the spec: `metaFileName` (defined elsewhere in the
`snapshot` package), the well-known name of a snapshot metadata file in
both layouts. -/
def metaFileName : String := "meta.json"

/-- Modelled from the spec: `tmpName` (defined elsewhere in the package)
returns the given path with a reserved suffix on its final component. -/
def tmpName (p : Path) : Path := p.dropLast ++ [p.getLastD "" ++ ".tmp"]

/-- Modelled from the spec: the legacy snapshot metadata record
(`raft.SnapshotMeta`, an external type): consensus term, log index and
snapshot id, the fields the ordering and the upgrade use. -/
structure SnapshotMeta where
  Term : Nat
  Index : Nat
  ID : String
deriving DecidableEq, Repr

/-- The record `Meta` of the `snapshot` package as `Upgrade` uses it: the legacy
record embedded whole, plus the `Full` (non-incremental) marker. -/
structure Meta where
  snapMeta : SnapshotMeta
  Full : Bool
deriving DecidableEq, Repr

/-- Contents of a file in the model.  JSON encoding and decoding are
external (`encoding/json`), so metadata files are carried symbolically:
`legacyMeta m` stands for exactly those byte contents that decode to the
record `m`, `newMeta m` for the JSON document `writeMeta` produces, and
`bytes` for contents that do not decode as a metadata record. -/
inductive FileData where
  | bytes : List Nat → FileData
  | legacyMeta : SnapshotMeta → FileData
  | newMeta : Meta → FileData
deriving DecidableEq, Repr

instance exceptDecEq {e a : Type} [DecidableEq e] [DecidableEq a] :
    DecidableEq (Except e a) := fun x y =>
  match x, y with
  | .error u, .error v =>
    if h : u = v then isTrue (by rw [h]) else isFalse (fun hc => h (by cases hc; rfl))
  | .ok u, .ok v =>
    if h : u = v then isTrue (by rw [h]) else isFalse (fun hc => h (by cases hc; rfl))
  | .error _, .ok _ => isFalse (fun hc => Except.noConfusion hc)
  | .ok _, .error _ => isFalse (fun hc => Except.noConfusion hc)

/-- A filesystem entry: a directory or a file. -/
inductive Entry where
  | dir : Entry
  | file : FileData → Entry
deriving DecidableEq, Repr

/-- The filesystem as a flat association list from absolute paths to
entries; the first binding for a path wins. -/
abbrev Fs := List (Path × Entry)

/-- Lookup of a path, in the style of `os.Stat`. -/
def lookup (fs : Fs) (p : Path) : Option Entry :=
  (fs.find? (fun e => decide (e.1 = p))).map (fun e => e.2)

/-- The helper `dirExists`: the path exists and is a directory. -/
def dirExists (fs : Fs) (p : Path) : Bool := lookup fs p == some .dir

/-- The helper `fileExists`: the path exists and is a regular file. -/
def fileExists (fs : Fs) (p : Path) : Bool :=
  match lookup fs p with
  | some (.file _) => true
  | _ => false

/-- The names `os.ReadDir` returns for `p`: the last components of the
bindings one level below `p`, in binding order (Go returns them sorted,
but every use in `Upgrade` is order-insensitive). -/
def childNames (fs : Fs) (p : Path) : List String :=
  fs.filterMap (fun e =>
    if p.isPrefixOf e.1 ∧ e.1.length = p.length + 1 then e.1.getLast? else none)

/-- The helper `dirIsEmpty` from the source: `os.ReadDir` returns no entries. -/
def dirIsEmpty (fs : Fs) (p : Path) : Bool := childNames fs p == []

/-- The operation `os.RemoveAll`: delete the entry at `p` and everything below it. -/
def removeAll (p : Path) (fs : Fs) : Fs :=
  fs.filter (fun e => !(p.isPrefixOf e.1))

/-- The operation `os.MkdirAll`: create a directory at every non-root prefix of `p` that
does not exist yet (local directory creation succeeds in the model). -/
def mkdirAll (p : Path) (fs : Fs) : Fs :=
  ((p.inits.filter (fun q => !q.isEmpty && (lookup fs q).isNone)).map
    (fun q => (q, Entry.dir))) ++ fs

/-- Creating and writing out a whole file (`os.Create` plus the copy): bind `p` to `d`, dropping
any previous binding of exactly `p`. -/
def writeFile (p : Path) (d : FileData) (fs : Fs) : Fs :=
  (p, Entry.file d) :: fs.filter (fun e => !(decide (e.1 = p)))

/-- The effect of `os.Rename src dst` when nothing exists at `dst`: every
binding at or below `src` is re-rooted at `dst`. -/
def move (src dst : Path) (fs : Fs) : Fs :=
  fs.map (fun e =>
    if src.isPrefixOf e.1 then (dst ++ e.1.drop src.length, e.2) else e)

/-- Modelled from the spec: `writeMeta` (defined elsewhere in the
`snapshot` package) writes the new-format JSON metadata document for `m`
into the snapshot directory `dir` under the metadata file name. -/
def writeMeta (fs : Fs) (dir : Path) (m : Meta) : Fs :=
  writeFile (dir ++ [metaFileName]) (.newMeta m) fs

/-- JSON decoding of a metadata file into a `raft.SnapshotMeta`
(`json.Decoder.Decode`): symbolic metadata contents decode to their record
(a new-format document carries all the legacy fields), raw bytes do not. -/
def decodeRaftMeta : FileData → Option SnapshotMeta
  | .legacyMeta m => some m
  | .newMeta m => some m.snapMeta
  | .bytes _ => none

/-- Lexicographic comparison of character lists by code point, the model
of Go's `<` on strings. -/
def charsLt : List Char → List Char → Bool
  | [], [] => false
  | [], _ :: _ => true
  | _ :: _, [] => false
  | a :: as, b :: bs =>
    if a.toNat < b.toNat then true
    else if b.toNat < a.toNat then false
    else charsLt as bs

/-- Go's `<` on strings: lexicographic comparison of the characters. -/
def strLt (a b : String) : Bool := charsLt a.data b.data

/-- The ordering `raftMetaSlice.Less` from the source: order by term, then index, then
id (lexicographic string order). -/
def raftLess (a b : SnapshotMeta) : Bool :=
  if a.Term ≠ b.Term then a.Term < b.Term
  else if a.Index ≠ b.Index then a.Index < b.Index
  else strLt a.ID b.ID

/-- The non-strict ordering `sort.Sort` establishes for `raftMetaSlice`:
`a` does not have to come after `b`. -/
def raftLe (a b : SnapshotMeta) : Bool := !raftLess b a

/-- The method `raftMetaSlice.Newest`: sort ascending by `Less` and take the last
element; `none` on an empty slice (`sort.Sort` produces a `Less`-sorted
permutation; insertion sort is one such). -/
def Newest (s : List SnapshotMeta) : Option SnapshotMeta :=
  (s.insertionSort (fun a b => raftLe a b = true)).getLast?

/-- The loop of `getNewest7Snapshot`: walk the directory entries in order,
collect the records of subdirectories whose metadata file decodes, fail on
an undecodable metadata file, and skip non-directories and subdirectories
without a metadata file. -/
def collect7 (fs : Fs) (dir : Path) : List String → Except Unit (List SnapshotMeta)
  | [] => .ok []
  | n :: rest =>
    if dirExists fs (dir ++ [n]) then
      if fileExists fs (dir ++ [n, metaFileName]) then
        match lookup fs (dir ++ [n, metaFileName]) with
        | some (.file d) =>
          match decodeRaftMeta d with
          | some m => (collect7 fs dir rest).map (fun l => m :: l)
          | none => .error ()
        | _ => collect7 fs dir rest
      else collect7 fs dir rest
    else collect7 fs dir rest

/-- The function `getNewest7Snapshot` from the source: enumerate `dir`, collect every
decodable legacy record, and return the newest, or `none` when there are
none. -/
def getNewest7Snapshot (fs : Fs) (dir : Path) : Except Unit (Option SnapshotMeta) :=
  (collect7 fs dir (childNames fs dir)).map Newest

/-- Result of an `Upgrade` call: whether it returned an error, and the
filesystem it leaves behind (the Go code mutates the filesystem in place;
an error return rolls nothing back). -/
structure UpgradeResult where
  err : Bool
  fs : Fs
deriving DecidableEq, Repr

/-- Step 1 of `Upgrade`: remove a leftover temporary new root from an
interrupted earlier attempt. -/
def step1 (new : Path) (fs : Fs) : Fs :=
  if dirExists fs (tmpName new) then removeAll (tmpName new) fs else fs

/-- The function `Upgrade` from the `snapshot` package over the filesystem model.
Local I/O (directory creation and removal, file creation, the final
rename when its target is free) succeeds; the rename fails exactly when
something still occupies the target path, as `os.Rename` onto an existing
non-directory does.  The state blob is read as raw bytes (a symbolic
metadata document is not a gzip stream, so anything else fails the
decompression step), its first 16 bytes are skipped, and the rest is
decompressed into the base state file. -/
def Upgrade (codec : GzipCodec) (isValidSQLiteFile : List Nat → Bool)
    (old new : Path) (fs0 : Fs) : UpgradeResult :=
  let newTmpDir := tmpName new
  let newGenerationDir := newTmpDir ++ [generationsDir, firstGeneration]
  let fs := step1 new fs0
  if dirExists fs old then
    if dirIsEmpty fs old then
      ⟨false, removeAll old fs⟩
    else if dirExists fs new then
      ⟨false, removeAll old fs⟩
    else
      let fs1 := mkdirAll newTmpDir fs
      match getNewest7Snapshot fs1 old with
      | .error _ => ⟨true, fs1⟩
      | .ok none => ⟨true, fs1⟩
      | .ok (some oldMeta) =>
        let newSnapshotPath := newGenerationDir ++ [oldMeta.ID]
        let fs2 := mkdirAll newSnapshotPath fs1
        let fs3 := writeMeta fs2 newSnapshotPath ⟨oldMeta, true⟩
        let newSqliteBasePath := newGenerationDir ++ [baseSqliteFile]
        let fs4 := writeFile newSqliteBasePath (.bytes []) fs3
        match lookup fs4 (old ++ [oldMeta.ID, v7StateFile]) with
        | some (.file (.bytes b)) =>
          match codec.decompress (b.drop 16) with
          | .error pfx => ⟨true, writeFile newSqliteBasePath (.bytes pfx) fs4⟩
          | .ok d =>
            let fs5 := writeFile newSqliteBasePath (.bytes d) fs4
            if isValidSQLiteFile d then
              if (lookup fs5 new).isNone then
                ⟨false, removeAll old (move newTmpDir new fs5)⟩
              else ⟨true, fs5⟩
            else ⟨true, fs5⟩
        | _ => ⟨true, fs4⟩
  else ⟨false, fs⟩

/-- No binding of `fs` sits at or below `dst`. -/
def noKeysUnder (dst : Path) (fs : Fs) : Prop := ∀ e ∈ fs, ¬ dst <+: e.1

instance noKeysUnder_decidable (dst : Path) (fs : Fs) : Decidable (noKeysUnder dst fs) := by
  unfold noKeysUnder
  infer_instance

/-- Path sanity of an upgrade invocation: the new root is not the
filesystem root, and neither the new root nor its temporary sibling is
nested with the old root. -/
def rootsOk (old new : Path) : Prop :=
  new ≠ [] ∧ old.isPrefixOf new = false ∧ new.isPrefixOf old = false ∧
    old.isPrefixOf (tmpName new) = false ∧ (tmpName new).isPrefixOf old = false

instance rootsOk_decidable (old new : Path) : Decidable (rootsOk old new) := by
  unfold rootsOk
  infer_instance

end Snapshot

namespace Restore

/-- When the staging file holds at least 3 bytes, `isGzip` reads the first
3 bytes, compares them with the magic prefix, and returns with the position
restored to the start. -/
theorem isGzip_of_three (f : StagingFile) (h3 : 3 ≤ f.data.length) :
    isGzip f = .ok (decide (f.data.take 3 = gzipMagic), ⟨f.data, 0⟩) := by
  have hne : ¬ f.data = [] := by
    intro h
    rw [h] at h3
    simp at h3
  have hlt : ¬ f.data.length < 3 := by omega
  unfold isGzip fileRead
  simp [gzipMagic, hne, hlt, Nat.min_eq_left h3]

/-- C4: every `Do` call updates the counters exactly once: on a nil error,
ok+1 and the staging-file byte count added to the byte counter; on an
error, fail+1 and the other two counters unchanged. -/
theorem Do_counters (codec : GzipCodec) (env : DoEnv) (s : Stats) :
    ((Do codec env s).err = false →
      (Do codec env s).stats =
        ⟨s.numDownloadsOK + 1, s.numDownloadsFail,
         s.numDownloadBytes + (runDownload env.run.ops).2⟩) ∧
    ((Do codec env s).err = true →
      (Do codec env s).stats =
        ⟨s.numDownloadsOK, s.numDownloadsFail + 1, s.numDownloadBytes⟩) := by
  unfold Do
  (repeat' split) <;> refine ⟨fun h => ?_, fun h => ?_⟩ <;> first | rfl | simp at h

/-- C4 witness: concrete success run (3 raw bytes written at offset 0) and
concrete failed run. -/
theorem Do_counters_witness :
    (Do toyCodec ⟨false, ⟨[(0, [1, 2, 3])], false⟩⟩ ⟨0, 0, 0⟩).stats =
      ⟨0 + 1, 0, 0 + (runDownload [(0, [1, 2, 3])]).2⟩ ∧
    (Do toyCodec ⟨false, ⟨[], true⟩⟩ ⟨0, 0, 0⟩).stats = ⟨0, 0 + 1, 0⟩ :=
  ⟨(Do_counters toyCodec ⟨false, ⟨[(0, [1, 2, 3])], false⟩⟩ ⟨0, 0, 0⟩).1 (by decide),
   (Do_counters toyCodec ⟨false, ⟨[], true⟩⟩ ⟨0, 0, 0⟩).2 (by decide)⟩

/-- C9: whenever the staging file is successfully created, it is removed
again before `Do` returns, on success and on every error path. -/
theorem Do_staging_removed (codec : GzipCodec) (env : DoEnv) (s : Stats)
    (h : env.createErr = false) :
    (Do codec env s).stagingCreated = true ∧ (Do codec env s).stagingRemoved = true := by
  unfold Do
  rw [h]
  (repeat' split) <;> refine ⟨?_, ?_⟩ <;> first | rfl | simp_all

/-- C9 witness: staging creation succeeds on a concrete failing download. -/
theorem Do_staging_removed_witness :
    (Do toyCodec ⟨false, ⟨[], true⟩⟩ ⟨0, 0, 0⟩).stagingCreated = true ∧
    (Do toyCodec ⟨false, ⟨[], true⟩⟩ ⟨0, 0, 0⟩).stagingRemoved = true :=
  Do_staging_removed toyCodec ⟨false, ⟨[], true⟩⟩ ⟨0, 0, 0⟩ rfl

/-- C10: a download that reports success but leaves the staging file empty
makes `Do` fail: the 3-byte sniff hits end-of-file, the call returns an
error, the failure counter is incremented, and the sink receives nothing. -/
theorem Do_empty_staging_fails (codec : GzipCodec) (env : DoEnv) (s : Stats)
    (hc : env.createErr = false) (hd : env.run.dlErr = false)
    (he : (runDownload env.run.ops).1.data = []) :
    (Do codec env s).err = true ∧ (Do codec env s).sink = [] ∧
    (Do codec env s).stats = ⟨s.numDownloadsOK, s.numDownloadsFail + 1, s.numDownloadBytes⟩ := by
  have hg : isGzip (runDownload env.run.ops).1 = .error () := by
    unfold isGzip fileRead
    rw [he]
    simp
  unfold Do
  rw [hc]
  simp [hd, hg]

/-- C10 witness: a successful download with no writes at all. -/
theorem Do_empty_staging_fails_witness :
    (Do toyCodec ⟨false, ⟨[], false⟩⟩ ⟨0, 0, 0⟩).err = true ∧
    (Do toyCodec ⟨false, ⟨[], false⟩⟩ ⟨0, 0, 0⟩).sink = [] ∧
    (Do toyCodec ⟨false, ⟨[], false⟩⟩ ⟨0, 0, 0⟩).stats = ⟨0, 0 + 1, 0⟩ :=
  Do_empty_staging_fails toyCodec ⟨false, ⟨[], false⟩⟩ ⟨0, 0, 0⟩ rfl rfl rfl

/-- C2 (amended): when the staging file ends up holding the compressed
framing of `P`, or holding `P` raw with at least 3 bytes whose first three
are not the framing marker, `Do` returns nil and the sink receives exactly
`P`. -/
theorem Do_delivers_payload (codec : GzipCodec) (env : DoEnv) (s : Stats) (P : List Nat)
    (hc : env.createErr = false) (hd : env.run.dlErr = false) :
    ((runDownload env.run.ops).1.data = codec.compress P →
      (Do codec env s).err = false ∧ (Do codec env s).sink = P) ∧
    ((runDownload env.run.ops).1.data = P → 3 ≤ P.length → ¬ P.take 3 = gzipMagic →
      (Do codec env s).err = false ∧ (Do codec env s).sink = P) := by
  constructor
  · intro hdata
    have hm := codec.compress_magic P
    have h3 : 3 ≤ (codec.compress P).length := by
      have hlen := congrArg List.length hm
      simp [gzipMagic] at hlen
      omega
    have hg : isGzip (runDownload env.run.ops).1 = .ok (true, ⟨codec.compress P, 0⟩) := by
      rw [show (runDownload env.run.ops).1 = ⟨codec.compress P, (runDownload env.run.ops).1.pos⟩
            from by cases h : (runDownload env.run.ops).1 with | mk d p => simpa [h] using hdata]
      rw [isGzip_of_three ⟨codec.compress P, (runDownload env.run.ops).1.pos⟩ h3]
      simp [hm]
    unfold Do
    rw [hc]
    simp [hd, hg, codec.decompress_compress]
  · intro hdata h3 hne
    have hg : isGzip (runDownload env.run.ops).1 = .ok (false, ⟨P, 0⟩) := by
      rw [show (runDownload env.run.ops).1 = ⟨P, (runDownload env.run.ops).1.pos⟩
            from by cases h : (runDownload env.run.ops).1 with | mk d p => simpa [h] using hdata]
      rw [isGzip_of_three ⟨P, (runDownload env.run.ops).1.pos⟩ h3]
      simp [hne]
    unfold Do
    rw [hc]
    simp [hd, hg]

/-- C2 witness: gzip delivery of `[5]` and raw delivery of `[1, 2, 3]`. -/
theorem Do_delivers_payload_witness :
    ((Do toyCodec ⟨false, ⟨[(0, [0x1f, 0x8b, 0x08, 5])], false⟩⟩ ⟨0, 0, 0⟩).err = false ∧
     (Do toyCodec ⟨false, ⟨[(0, [0x1f, 0x8b, 0x08, 5])], false⟩⟩ ⟨0, 0, 0⟩).sink = [5]) ∧
    ((Do toyCodec ⟨false, ⟨[(0, [1, 2, 3])], false⟩⟩ ⟨0, 0, 0⟩).err = false ∧
     (Do toyCodec ⟨false, ⟨[(0, [1, 2, 3])], false⟩⟩ ⟨0, 0, 0⟩).sink = [1, 2, 3]) :=
  ⟨(Do_delivers_payload toyCodec ⟨false, ⟨[(0, [0x1f, 0x8b, 0x08, 5])], false⟩⟩
      ⟨0, 0, 0⟩ [5] rfl rfl).1 (by decide),
   (Do_delivers_payload toyCodec ⟨false, ⟨[(0, [1, 2, 3])], false⟩⟩
      ⟨0, 0, 0⟩ [1, 2, 3] rfl rfl).2 (by decide) (by decide) (by decide)⟩

/-- C2 counterexample: a successful raw download of the single byte `0x00`
returns nil from `Do`, yet the sink receives nothing — the claim's promise
of exact delivery for every payload fails for raw payloads shorter than
3 bytes, because `isGzip` leaves the read position past the short read. -/
theorem Do_raw_short_payload_lost :
    (Do toyCodec ⟨false, ⟨[(0, [0])], false⟩⟩ ⟨0, 0, 0⟩).err = false ∧
    ¬ (Do toyCodec ⟨false, ⟨[(0, [0])], false⟩⟩ ⟨0, 0, 0⟩).sink = [0] := by
  decide

/-- C3: on a 2-byte staging file `isGzip` returns without error, but the
read position is left at 2 rather than restored to the start — contradicting
`isGzip`'s own documentation and the claim. -/
theorem isGzip_short_read_position :
    ∃ f1 : StagingFile,
      isGzip ⟨[0x41, 0x42], 0⟩ = .ok (false, f1) ∧ ¬ f1.pos = 0 :=
  ⟨⟨[0x41, 0x42], 2⟩, rfl, by decide⟩

end Restore

namespace Snapshot

/-! Ordering facts about `raftMetaSlice.Less`. -/

theorem charsLt_irrefl (l : List Char) : charsLt l l = false := by
  induction l with
  | nil => rfl
  | cons a as ih => simp [charsLt, ih]

theorem charsLt_asymm (x y : List Char) (h : charsLt x y = true) :
    charsLt y x = false := by
  induction x generalizing y with
  | nil =>
    cases y with
    | nil => rfl
    | cons b bs => rfl
  | cons a as ih =>
    cases y with
    | nil => simp [charsLt] at h
    | cons b bs =>
      by_cases h1 : a.toNat < b.toNat
      · have h2 : ¬ b.toNat < a.toNat := by omega
        simp [charsLt, h1, h2]
      · by_cases h2 : b.toNat < a.toNat
        · simp [charsLt, h1, h2] at h
        · simp only [charsLt, if_neg h1, if_neg h2] at h
          simp only [charsLt, if_neg h1, if_neg h2]
          exact ih bs h

theorem charsLt_trans (x y z : List Char) (h1 : charsLt x y = true)
    (h2 : charsLt y z = true) : charsLt x z = true := by
  induction x generalizing y z with
  | nil =>
    cases z with
    | nil =>
      cases y with
      | nil => exact h1
      | cons b bs => simp [charsLt] at h2
    | cons c cs => rfl
  | cons a as ih =>
    cases y with
    | nil => simp [charsLt] at h1
    | cons b bs =>
      cases z with
      | nil => simp [charsLt] at h2
      | cons c cs =>
        by_cases g1 : a.toNat < b.toNat <;> by_cases g2 : b.toNat < c.toNat
        · simp [charsLt, show a.toNat < c.toNat by omega]
        · by_cases g3 : c.toNat < b.toNat
          · simp [charsLt, g2, g3] at h2
          · have hbc : b.toNat = c.toNat := by omega
            simp [charsLt, show a.toNat < c.toNat by omega]
        · by_cases g4 : b.toNat < a.toNat
          · simp [charsLt, g1, g4] at h1
          · have hab : a.toNat = b.toNat := by omega
            simp [charsLt, show a.toNat < c.toNat by omega]
        · by_cases g4 : b.toNat < a.toNat
          · simp [charsLt, g1, g4] at h1
          · by_cases g3 : c.toNat < b.toNat
            · simp [charsLt, g2, g3] at h2
            · have hab : a.toNat = b.toNat := by omega
              have hbc : b.toNat = c.toNat := by omega
              have e1 : ¬ a.toNat < c.toNat := by omega
              have e2 : ¬ c.toNat < a.toNat := by omega
              simp only [charsLt, if_neg g1, if_neg g4] at h1
              simp only [charsLt, if_neg g2, if_neg g3] at h2
              simp only [charsLt, if_neg e1, if_neg e2]
              exact ih bs cs h1 h2

theorem charsLt_trichotomy (x y : List Char) :
    charsLt x y = true ∨ x = y ∨ charsLt y x = true := by
  induction x generalizing y with
  | nil =>
    cases y with
    | nil => exact Or.inr (Or.inl rfl)
    | cons b bs => exact Or.inl rfl
  | cons a as ih =>
    cases y with
    | nil => exact Or.inr (Or.inr rfl)
    | cons b bs =>
      by_cases h1 : a.toNat < b.toNat
      · exact Or.inl (by simp [charsLt, h1])
      · by_cases h2 : b.toNat < a.toNat
        · exact Or.inr (Or.inr (by simp [charsLt, h2]))
        · have hac : a = b := by
            have hn : a.toNat = b.toNat := by omega
            exact Char.ext (UInt32.ext hn)
          subst hac
          rcases ih bs with h | h | h
          · exact Or.inl (by simp [charsLt, h])
          · exact Or.inr (Or.inl (by rw [h]))
          · exact Or.inr (Or.inr (by simp [charsLt, h]))

theorem strLt_irrefl (a : String) : strLt a a = false := charsLt_irrefl a.data

theorem strLt_asymm (a b : String) (h : strLt a b = true) : strLt b a = false :=
  charsLt_asymm a.data b.data h

theorem strLt_trans (a b c : String) (h1 : strLt a b = true)
    (h2 : strLt b c = true) : strLt a c = true :=
  charsLt_trans a.data b.data c.data h1 h2

theorem strLt_trichotomy (a b : String) :
    strLt a b = true ∨ a = b ∨ strLt b a = true := by
  rcases charsLt_trichotomy a.data b.data with h | h | h
  · exact Or.inl h
  · refine Or.inr (Or.inl ?_)
    cases a
    cases b
    exact congrArg String.mk h
  · exact Or.inr (Or.inr h)

theorem raftLess_iff (a b : SnapshotMeta) :
    raftLess a b = true ↔
      a.Term < b.Term ∨ a.Term = b.Term ∧ a.Index < b.Index ∨
        a.Term = b.Term ∧ a.Index = b.Index ∧ strLt a.ID b.ID = true := by
  unfold raftLess
  by_cases h1 : a.Term = b.Term <;> by_cases h2 : a.Index = b.Index <;> simp [h1, h2]

theorem raftLess_irrefl (a : SnapshotMeta) : raftLess a a = false := by
  unfold raftLess
  simp [strLt_irrefl]

theorem raftLess_asymm (a b : SnapshotMeta) (h : raftLess a b = true) :
    raftLess b a = false := by
  rcases Bool.eq_false_or_eq_true (raftLess b a) with h2 | h2
  case inr => exact h2
  · exfalso
    rcases (raftLess_iff a b).1 h with h3 | ⟨h3, h4⟩ | ⟨h3, h4, h5⟩ <;>
      rcases (raftLess_iff b a).1 h2 with g3 | ⟨g3, g4⟩ | ⟨g3, g4, g5⟩ <;>
        first
          | omega
          | exact absurd (strLt_trans _ _ _ h5 g5) (by simp [strLt_irrefl])

theorem raftLess_trichotomy (a b : SnapshotMeta) :
    raftLess a b = true ∨ a = b ∨ raftLess b a = true := by
  rcases lt_trichotomy a.Term b.Term with h | h | h
  · exact Or.inl ((raftLess_iff a b).2 (Or.inl h))
  · rcases lt_trichotomy a.Index b.Index with h2 | h2 | h2
    · exact Or.inl ((raftLess_iff a b).2 (Or.inr (Or.inl ⟨h, h2⟩)))
    · rcases strLt_trichotomy a.ID b.ID with h3 | h3 | h3
      · exact Or.inl ((raftLess_iff a b).2 (Or.inr (Or.inr ⟨h, h2, h3⟩)))
      · refine Or.inr (Or.inl ?_)
        cases a
        cases b
        simp_all
      · exact Or.inr (Or.inr ((raftLess_iff b a).2 (Or.inr (Or.inr ⟨h.symm, h2.symm, h3⟩))))
    · exact Or.inr (Or.inr ((raftLess_iff b a).2 (Or.inr (Or.inl ⟨h.symm, h2⟩))))
  · exact Or.inr (Or.inr ((raftLess_iff b a).2 (Or.inl h)))

theorem raftLess_trans (a b c : SnapshotMeta)
    (h1 : raftLess a b = true) (h2 : raftLess b c = true) : raftLess a c = true := by
  rcases (raftLess_iff a b).1 h1 with h3 | ⟨h3, h4⟩ | ⟨h3, h4, h5⟩ <;>
    rcases (raftLess_iff b c).1 h2 with g3 | ⟨g3, g4⟩ | ⟨g3, g4, g5⟩ <;>
      refine (raftLess_iff a c).2 ?_ <;>
        first
          | exact Or.inl (by omega)
          | exact Or.inr (Or.inl ⟨by omega, by omega⟩)
          | exact Or.inr (Or.inr ⟨by omega, by omega, strLt_trans _ _ _ h5 g5⟩)

theorem raftLe_total (a b : SnapshotMeta) : (raftLe a b || raftLe b a) = true := by
  unfold raftLe
  rcases Bool.eq_false_or_eq_true (raftLess b a) with h | h
  · simp [raftLess_asymm b a h]
  · simp [h]

theorem raftLe_trans (a b c : SnapshotMeta)
    (h1 : raftLe a b = true) (h2 : raftLe b c = true) : raftLe a c = true := by
  unfold raftLe at h1 h2 ⊢
  simp only [Bool.not_eq_true'] at h1 h2 ⊢
  rcases Bool.eq_false_or_eq_true (raftLess c a) with h | h
  case inr => exact h
  · exfalso
    rcases raftLess_trichotomy b c with g | g | g
    · exact absurd (raftLess_trans b c a g h) (by simp [h1])
    · subst g
      exact absurd h (by simp [h1])
    · exact absurd g (by simp [h2])

instance : IsTotal SnapshotMeta (fun a b => raftLe a b = true) :=
  ⟨fun a b => Bool.or_eq_true_iff.1 (raftLe_total a b)⟩

instance : IsTrans SnapshotMeta (fun a b => raftLe a b = true) :=
  ⟨raftLe_trans⟩

/-- In a `raftLe`-pairwise list the last element is above every member. -/
theorem raftLe_getLast (l : List SnapshotMeta) (x m : SnapshotMeta)
    (hp : l.Pairwise (fun a b => raftLe a b = true))
    (hl : l.getLast? = some m) (hx : x ∈ l) : raftLe x m = true := by
  induction l with
  | nil => cases hx
  | cons a t ih =>
    cases t with
    | nil =>
      simp only [List.getLast?_singleton, Option.some.injEq] at hl
      simp only [List.mem_singleton] at hx
      subst hl
      subst hx
      unfold raftLe
      simp [raftLess_irrefl]
    | cons b t2 =>
      have hl2 : (b :: t2).getLast? = some m := by
        rw [← List.getLast?_cons_cons (a := a)]
        exact hl
      rcases List.mem_cons.1 hx with rfl | hx2
      · have hm : m ∈ b :: t2 := List.mem_of_mem_getLast? hl2
        exact (List.pairwise_cons.1 hp).1 m hm
      · exact ih (List.pairwise_cons.1 hp).2 hl2 hx2

/-- C5: `Newest` picks a member of the slice that every member equals or
is strictly `(term, index, id)`-below, it returns a record whenever the
slice is non-empty, and on the spec's example records it picks
`(2, 1, "c")`. -/
theorem Newest_greatest :
    (∀ (s : List SnapshotMeta) (x : SnapshotMeta), Newest s = some x →
        x ∈ s ∧ ∀ m ∈ s, m = x ∨ raftLess m x = true) ∧
    (∀ s : List SnapshotMeta, s ≠ [] → (Newest s).isSome = true) ∧
    Newest [⟨1, 5, "a"⟩, ⟨2, 1, "b"⟩, ⟨2, 1, "c"⟩] = some ⟨2, 1, "c"⟩ := by
  refine ⟨?_, ?_, ?_⟩
  · intro s x hx
    have hperm := List.perm_insertionSort (fun a b => raftLe a b = true) s
    have hsorted := List.sorted_insertionSort (fun a b => raftLe a b = true) s
    have hxmem : x ∈ s.insertionSort (fun a b => raftLe a b = true) :=
      List.mem_of_mem_getLast? hx
    refine ⟨hperm.mem_iff.1 hxmem, fun m hm => ?_⟩
    have hmle : raftLe m x = true :=
      raftLe_getLast _ m x hsorted hx (hperm.mem_iff.2 hm)
    rcases raftLess_trichotomy m x with h | h | h
    · exact Or.inr h
    · exact Or.inl h
    · exfalso
      unfold raftLe at hmle
      simp [h] at hmle
  · intro s hs
    unfold Newest
    rw [List.getLast?_isSome]
    intro h
    exact hs
      ((List.perm_insertionSort (fun a b => raftLe a b = true) s).symm.trans
        (h ▸ List.Perm.refl _)).eq_nil
  · decide

/-- C5 witness: the general part applied to the spec's example slice. -/
theorem Newest_greatest_witness :
    (⟨2, 1, "c"⟩ : SnapshotMeta) ∈
        ([⟨1, 5, "a"⟩, ⟨2, 1, "b"⟩, ⟨2, 1, "c"⟩] : List SnapshotMeta) ∧
      ∀ m ∈ ([⟨1, 5, "a"⟩, ⟨2, 1, "b"⟩, ⟨2, 1, "c"⟩] : List SnapshotMeta),
        m = (⟨2, 1, "c"⟩ : SnapshotMeta) ∨ raftLess m ⟨2, 1, "c"⟩ = true :=
  Newest_greatest.1 _ _ Newest_greatest.2.2

/-! Basic facts about the filesystem operations. -/

theorem isPrefixOf_true_iff {a b : Path} : a.isPrefixOf b = true ↔ a <+: b :=
  List.isPrefixOf_iff_prefix

theorem isPrefixOf_false_iff {a b : Path} : a.isPrefixOf b = false ↔ ¬ a <+: b := by
  rw [← isPrefixOf_true_iff]
  cases h : a.isPrefixOf b <;> simp

theorem prefixComparable {p r q : Path} (h1 : p <+: q) (h2 : r <+: q) :
    p <+: r ∨ r <+: p :=
  List.prefix_or_prefix_of_prefix h1 h2

theorem prefix_of_append_cases {p a b : Path} (h : p <+: a ++ b) :
    p <+: a ∨ a <+: p :=
  prefixComparable h (List.prefix_append a b)

theorem lookup_cons (e : Path × Entry) (fs : Fs) (q : Path) :
    lookup (e :: fs) q = if e.1 = q then some e.2 else lookup fs q := by
  unfold lookup
  by_cases h : e.1 = q <;> simp [List.find?_cons, h]

theorem lookup_removeAll (p q : Path) (fs : Fs) :
    lookup (removeAll p fs) q = if p.isPrefixOf q then none else lookup fs q := by
  induction fs with
  | nil =>
    unfold removeAll lookup
    simp only [List.filter_nil, List.find?_nil, Option.map_none]
    split <;> rfl
  | cons e t ih =>
    unfold removeAll at ih ⊢
    by_cases hk : p.isPrefixOf e.1
    · rw [List.filter_cons_of_neg (by simp [hk])]
      rw [ih, lookup_cons]
      by_cases hq : e.1 = q
      · subst hq
        simp [hk]
      · simp [hq]
    · rw [List.filter_cons_of_pos (by simp [hk])]
      rw [lookup_cons, lookup_cons, ih]
      by_cases hq : e.1 = q
      · subst hq
        simp [hk]
      · simp [hq]

theorem lookup_removeAll_of_not {p q : Path} (fs : Fs) (h : ¬ p <+: q) :
    lookup (removeAll p fs) q = lookup fs q := by
  rw [lookup_removeAll, if_neg]
  rw [isPrefixOf_true_iff]
  exact h

theorem lookup_removeAll_under {p q : Path} (fs : Fs) (h : p <+: q) :
    lookup (removeAll p fs) q = none := by
  rw [lookup_removeAll, if_pos]
  rw [isPrefixOf_true_iff]
  exact h

theorem lookup_writeFile_self (p : Path) (d : FileData) (fs : Fs) :
    lookup (writeFile p d fs) p = some (.file d) := by
  unfold writeFile
  rw [lookup_cons]
  simp

theorem lookup_writeFile_ne {p q : Path} (hq : q ≠ p) (d : FileData) (fs : Fs) :
    lookup (writeFile p d fs) q = lookup fs q := by
  unfold writeFile
  rw [lookup_cons, if_neg (by simpa using fun h => hq h.symm)]
  induction fs with
  | nil => rfl
  | cons e t ih =>
    by_cases hk : e.1 = p
    · rw [List.filter_cons_of_neg (by simp [hk])]
      rw [ih, lookup_cons, if_neg (by rw [hk]; simpa using fun h => hq h.symm)]
    · rw [List.filter_cons_of_pos (by simp [hk])]
      rw [lookup_cons, lookup_cons, ih]

theorem lookup_append_none (a fs : Fs) (q : Path) (h : ∀ e ∈ a, e.1 ≠ q) :
    lookup (a ++ fs) q = lookup fs q := by
  unfold lookup
  rw [List.find?_append]
  have hn : a.find? (fun e => decide (e.1 = q)) = none :=
    List.find?_eq_none.2 (fun e he => by simpa using h e he)
  rw [hn]
  rfl

/-- The bindings `mkdirAll p` prepends: non-root prefixes of `p` that are
absent, bound to directories. -/
theorem mkdirAll_mem {p : Path} {fs : Fs} {e : Path × Entry}
    (he : e ∈ (p.inits.filter (fun q => !q.isEmpty && (lookup fs q).isNone)).map
      (fun q => (q, Entry.dir))) :
    e.1 <+: p ∧ e.1 ≠ [] ∧ lookup fs e.1 = none ∧ e.2 = Entry.dir := by
  rcases List.mem_map.1 he with ⟨q, hq, rfl⟩
  rcases List.mem_filter.1 hq with ⟨hq1, hq2⟩
  simp only [Bool.and_eq_true, Bool.not_eq_true', List.isEmpty_eq_false,
    Option.isNone_iff_eq_none] at hq2
  refine ⟨(List.mem_inits _ _).1 hq1, ?_, hq2.2, rfl⟩
  simpa using hq2.1

theorem lookup_mkdirAll_outside {p q : Path} (fs : Fs) (h : ¬ q <+: p) :
    lookup (mkdirAll p fs) q = lookup fs q := by
  unfold mkdirAll
  refine lookup_append_none _ _ _ (fun e he => ?_)
  intro hq
  subst hq
  exact h (mkdirAll_mem he).1

theorem lookup_mkdirAll_of_some {p q : Path} {v : Entry} (fs : Fs)
    (h : lookup fs q = some v) : lookup (mkdirAll p fs) q = some v := by
  unfold mkdirAll
  rw [lookup_append_none]
  · exact h
  · intro e he hq
    subst hq
    rw [(mkdirAll_mem he).2.2.1] at h
    cases h

theorem lookup_mkdirAll_eq_of_keys {p q : Path} (fs : Fs)
    (h : ∀ k : Path, k <+: p → k ≠ [] → lookup fs k = none → k ≠ q) :
    lookup (mkdirAll p fs) q = lookup fs q := by
  unfold mkdirAll
  refine lookup_append_none _ _ _ (fun e he hk => ?_)
  obtain ⟨hpre, hnil, hnone, _⟩ := mkdirAll_mem he
  exact h e.1 hpre hnil hnone hk

theorem lookup_move_frame (src dst q : Path) (fs : Fs)
    (h1 : ¬ src <+: q) (h2 : ¬ dst <+: q) :
    lookup (move src dst fs) q = lookup fs q := by
  induction fs with
  | nil => rfl
  | cons e t ih =>
    unfold move at ih ⊢
    rw [List.map_cons]
    by_cases hs : src.isPrefixOf e.1
    · rw [if_pos hs, lookup_cons, lookup_cons, ih, if_neg, if_neg]
      · intro hq
        subst hq
        exact h1 (isPrefixOf_true_iff.1 hs)
      · intro hq
        rw [← hq] at h2
        exact h2 (List.prefix_append dst _)
    · rw [if_neg hs, lookup_cons, lookup_cons, ih]

theorem lookup_move_transfer (src dst r : Path) (fs : Fs)
    (h : ∀ e ∈ fs, ¬ dst <+: e.1) :
    lookup (move src dst fs) (dst ++ r) = lookup fs (src ++ r) := by
  induction fs with
  | nil => rfl
  | cons e t ih =>
    have ht : ∀ e ∈ t, ¬ dst <+: e.1 := fun x hx => h x (List.mem_cons_of_mem e hx)
    unfold move at ih ⊢
    rw [List.map_cons]
    by_cases hs : src.isPrefixOf e.1
    · have hsp : src <+: e.1 := isPrefixOf_true_iff.1 hs
      obtain ⟨tail, htail⟩ := hsp
      have hdrop : e.1.drop src.length = tail := by
        rw [← htail]
        simp
      by_cases he : tail = r
      · subst he
        rw [if_pos hs, lookup_cons, lookup_cons, hdrop, if_pos rfl, if_pos htail.symm]
      · have hn1 : ¬ (dst ++ e.1.drop src.length = dst ++ r) := by
          rw [hdrop]
          intro hq
          exact he (List.append_cancel_left hq)
        have hn2 : ¬ (e.1 = src ++ r) := by
          rw [← htail]
          intro hq
          exact he (List.append_cancel_left hq)
        rw [if_pos hs, lookup_cons, lookup_cons, ih ht, if_neg hn1, if_neg hn2]
    · have hd1 : ¬ (e.1 = dst ++ r) := by
        intro hq
        exact h e (List.mem_cons_self e t) (by rw [hq]; exact List.prefix_append dst r)
      have hd2 : ¬ (e.1 = src ++ r) := by
        intro hq
        apply hs
        rw [isPrefixOf_true_iff, hq]
        exact List.prefix_append src r
      rw [if_neg hs, lookup_cons, lookup_cons, ih ht, if_neg hd1, if_neg hd2]

theorem noKeysUnder_lookup {dst : Path} {fs : Fs} (h : noKeysUnder dst fs) :
    lookup fs dst = none := by
  unfold lookup
  rw [List.find?_eq_none.2]
  · rfl
  · intro e he
    simp only [decide_eq_true_eq]
    intro hq
    exact h e he (hq ▸ List.prefix_rfl)

theorem noKeysUnder_removeAll {dst p : Path} {fs : Fs} (h : noKeysUnder dst fs) :
    noKeysUnder dst (removeAll p fs) :=
  fun e he => h e (List.mem_of_mem_filter he)

theorem noKeysUnder_writeFile {dst p : Path} {d : FileData} {fs : Fs}
    (h : noKeysUnder dst fs) (hp : ¬ dst <+: p) :
    noKeysUnder dst (writeFile p d fs) := by
  intro e he
  unfold writeFile at he
  rcases List.mem_cons.1 he with rfl | he2
  · exact hp
  · exact h e (List.mem_of_mem_filter he2)

theorem noKeysUnder_mkdirAll {dst p : Path} {fs : Fs}
    (h : noKeysUnder dst fs) (hp : ¬ dst <+: p) :
    noKeysUnder dst (mkdirAll p fs) := by
  intro e he
  unfold mkdirAll at he
  rcases List.mem_append.1 he with he1 | he2
  · intro hd
    exact hp (hd.trans (mkdirAll_mem he1).1)
  · exact h e he2

theorem noKeysUnder_step1 {dst new : Path} {fs : Fs} (h : noKeysUnder dst fs) :
    noKeysUnder dst (step1 new fs) := by
  unfold step1
  split
  · exact noKeysUnder_removeAll h
  · exact h

/-! `childNames`, `collect7` and `getNewest7Snapshot` only look at the
subtree of the directory they walk. -/

theorem childNames_append (a b : Fs) (p : Path) :
    childNames (a ++ b) p = childNames a p ++ childNames b p :=
  List.filterMap_append a b _

theorem childNames_eq_nil (a : Fs) (p : Path) (h : ∀ e ∈ a, ¬ p <+: e.1) :
    childNames a p = [] := by
  unfold childNames
  rw [List.filterMap_eq_nil_iff]
  intro e he
  rw [if_neg]
  intro hc
  exact h e he (isPrefixOf_true_iff.1 hc.1)

theorem childNames_removeAll (p dir : Path) (fs : Fs)
    (hd : ∀ q : Path, dir <+: q → p <+: q → False) :
    childNames (removeAll p fs) dir = childNames fs dir := by
  unfold childNames removeAll
  induction fs with
  | nil => rfl
  | cons e t ih =>
    by_cases hk : p.isPrefixOf e.1
    · rw [List.filter_cons_of_neg (by simp [hk]), ih, List.filterMap_cons_none]
      rw [if_neg]
      intro hc
      exact hd e.1 (isPrefixOf_true_iff.1 hc.1)
        (isPrefixOf_true_iff.1 hk)
    · rw [List.filter_cons_of_pos (by simp [hk]), List.filterMap_cons,
        List.filterMap_cons, ih]

theorem childNames_mkdirAll (p dir : Path) (fs : Fs) (hd : ¬ dir <+: p) :
    childNames (mkdirAll p fs) dir = childNames fs dir := by
  unfold mkdirAll
  rw [childNames_append, childNames_eq_nil _ _ (fun e he hc => hd (hc.trans (mkdirAll_mem he).1)),
    List.nil_append]

theorem collect7_congr (fs fs' : Fs) (dir : Path) (ns : List String)
    (h : ∀ q : Path, dir <+: q → lookup fs' q = lookup fs q) :
    collect7 fs' dir ns = collect7 fs dir ns := by
  induction ns with
  | nil => rfl
  | cons n rest ih =>
    have h1 : lookup fs' (dir ++ [n]) = lookup fs (dir ++ [n]) :=
      h _ (List.prefix_append dir [n])
    have h2 : lookup fs' (dir ++ [n, metaFileName]) = lookup fs (dir ++ [n, metaFileName]) :=
      h _ (List.prefix_append dir [n, metaFileName])
    unfold collect7 dirExists fileExists
    rw [h1, h2, ih]

theorem getNewest_congr (fs fs' : Fs) (dir : Path)
    (hc : childNames fs' dir = childNames fs dir)
    (h : ∀ q : Path, dir <+: q → lookup fs' q = lookup fs q) :
    getNewest7Snapshot fs' dir = getNewest7Snapshot fs dir := by
  unfold getNewest7Snapshot
  rw [hc, collect7_congr fs fs' dir _ h]

/-! The temporary root is never nested with the new root, and sane upgrade
invocations keep the three roots pairwise un-nested. -/

theorem tmpName_length (p : Path) (h : p ≠ []) :
    (tmpName p).length = p.length := by
  unfold tmpName
  rw [List.length_append, List.length_dropLast]
  have : 1 ≤ p.length := List.length_pos.2 h
  simp
  omega

theorem tmpName_ne (p : Path) (h : p ≠ []) : tmpName p ≠ p := by
  intro he
  obtain ⟨y, hy⟩ : ∃ y, p.getLast? = some y :=
    Option.isSome_iff_exists.1 (List.getLast?_isSome.2 h)
  have hD : p.getLastD "" = y := by
    rw [List.getLastD_eq_getLast?, hy]
    rfl
  have h2 : (tmpName p).getLast? = some (y ++ ".tmp") := by
    unfold tmpName
    rw [hD]
    exact List.getLast?_concat _
  rw [he, hy] at h2
  have h3 : y = y ++ ".tmp" := by
    simpa using h2
  have h4 := congrArg String.length h3
  rw [String.length_append] at h4
  have h5 : ".tmp".length = 4 := rfl
  omega

theorem tmpName_disj (p : Path) (h : p ≠ []) :
    ¬ p <+: tmpName p ∧ ¬ tmpName p <+: p := by
  constructor
  · intro hp
    exact tmpName_ne p h (hp.eq_of_length (tmpName_length p h).symm).symm
  · intro hp
    exact tmpName_ne p h (hp.eq_of_length (tmpName_length p h))

theorem rootsOk_spec {old new : Path} (h : rootsOk old new) :
    new ≠ [] ∧ ¬ old <+: new ∧ ¬ new <+: old ∧ ¬ old <+: tmpName new ∧
      ¬ tmpName new <+: old ∧ ¬ new <+: tmpName new ∧ ¬ tmpName new <+: new := by
  obtain ⟨h0, h1, h2, h3, h4⟩ := h
  have hd := tmpName_disj new h0
  exact ⟨h0, isPrefixOf_false_iff.1 h1, isPrefixOf_false_iff.1 h2,
    isPrefixOf_false_iff.1 h3, isPrefixOf_false_iff.1 h4, hd.1, hd.2⟩

/-! Transport of the guards and of `getNewest7Snapshot` across step 1 and
the creation of the temporary root. -/

theorem lookup_step1 {new : Path} (fs : Fs) {q : Path}
    (h : ¬ tmpName new <+: q) : lookup (step1 new fs) q = lookup fs q := by
  unfold step1
  split
  · exact lookup_removeAll_of_not fs h
  · rfl

theorem dirExists_step1 {old new : Path} (fs : Fs)
    (h : ¬ tmpName new <+: old) :
    dirExists (step1 new fs) old = dirExists fs old := by
  unfold dirExists
  rw [lookup_step1 fs h]

theorem childNames_step1 {dir new : Path} (fs : Fs)
    (h1 : ¬ tmpName new <+: dir) (h2 : ¬ dir <+: tmpName new) :
    childNames (step1 new fs) dir = childNames fs dir := by
  unfold step1
  split
  · refine childNames_removeAll _ _ _ (fun q hq hq2 => ?_)
    rcases prefixComparable hq hq2 with hc | hc
    · exact h2 hc
    · exact h1 hc
  · rfl

theorem dirIsEmpty_step1 {dir new : Path} (fs : Fs)
    (h1 : ¬ tmpName new <+: dir) (h2 : ¬ dir <+: tmpName new) :
    dirIsEmpty (step1 new fs) dir = dirIsEmpty fs dir := by
  unfold dirIsEmpty
  rw [childNames_step1 fs h1 h2]

theorem getNewest_step1 {dir new : Path} (fs : Fs)
    (h1 : ¬ tmpName new <+: dir) (h2 : ¬ dir <+: tmpName new) :
    getNewest7Snapshot (step1 new fs) dir = getNewest7Snapshot fs dir := by
  refine getNewest_congr fs _ dir (childNames_step1 fs h1 h2) (fun q hq => ?_)
  refine lookup_step1 fs (fun hc => ?_)
  rcases prefixComparable hq hc with hd | hd
  · exact h2 hd
  · exact h1 hd

theorem lookup_mkdirAll_subtree {p dir q : Path} (fs : Fs)
    (hd : ¬ dir <+: p) (hq : dir <+: q) :
    lookup (mkdirAll p fs) q = lookup fs q := by
  refine lookup_mkdirAll_outside fs (fun hc => hd (hq.trans hc))

theorem getNewest_mkdirAll {p dir : Path} (fs : Fs) (hd : ¬ dir <+: p) :
    getNewest7Snapshot (mkdirAll p fs) dir = getNewest7Snapshot fs dir := by
  refine getNewest_congr fs _ dir (childNames_mkdirAll p dir fs hd) (fun q hq => ?_)
  exact lookup_mkdirAll_subtree fs hd hq

/-- C6: the triviality checks, taken in order after temp cleanup, are each
terminal: a missing old root returns success touching nothing further; an
empty old root is deleted, succeeding without creating the new root; a
non-empty old root with the new root already present deletes the old root
and leaves the whole subtree of the new root untouched. -/
theorem Upgrade_trivial_cases (codec : GzipCodec) (isValid : List Nat → Bool)
    (old new : Path) (fs : Fs) (hroots : rootsOk old new) :
    (dirExists (step1 new fs) old = false →
      Upgrade codec isValid old new fs = ⟨false, step1 new fs⟩) ∧
    (dirExists (step1 new fs) old = true → dirIsEmpty (step1 new fs) old = true →
      Upgrade codec isValid old new fs = ⟨false, removeAll old (step1 new fs)⟩ ∧
      dirExists (removeAll old (step1 new fs)) new = dirExists fs new) ∧
    (dirExists (step1 new fs) old = true → dirIsEmpty (step1 new fs) old = false →
      dirExists (step1 new fs) new = true →
      Upgrade codec isValid old new fs = ⟨false, removeAll old (step1 new fs)⟩ ∧
      ∀ q : Path, new <+: q →
        lookup (removeAll old (step1 new fs)) q = lookup fs q) := by
  obtain ⟨hne, honw, hnwo, hot, hto, hnt, htn⟩ := rootsOk_spec hroots
  refine ⟨?_, ?_, ?_⟩
  · intro h1
    simp only [Upgrade, h1]
    simp
  · intro h1 h2
    constructor
    · simp only [Upgrade, h1, h2]
      simp
    · unfold dirExists
      rw [lookup_removeAll_of_not _ honw, lookup_step1 fs htn]
  · intro h1 h2 h3
    constructor
    · simp only [Upgrade, h1, h2, h3]
      simp
    · intro q hq
      have hoq : ¬ old <+: q := by
        intro ho
        rcases prefixComparable ho hq with hc | hc
        · exact honw hc
        · exact hnwo hc
      rw [lookup_removeAll_of_not _ hoq]
      refine lookup_step1 fs (fun hc => ?_)
      rcases prefixComparable hc hq with hd | hd
      · exact htn hd
      · exact hnt hd

/-- C6 witness: the three terminal cases on concrete filesystems — no old
root; an empty old root; a non-empty old root with the new root present. -/
theorem Upgrade_trivial_cases_witness :
    (Upgrade toyCodec (fun _ => true) ["o"] ["n"] [] = ⟨false, step1 ["n"] []⟩) ∧
    (Upgrade toyCodec (fun _ => true) ["o"] ["n"] [(["o"], .dir)] =
        ⟨false, removeAll ["o"] (step1 ["n"] [(["o"], .dir)])⟩ ∧
      dirExists (removeAll ["o"] (step1 ["n"] [(["o"], .dir)])) ["n"] =
        dirExists [(["o"], Entry.dir)] ["n"]) ∧
    (Upgrade toyCodec (fun _ => true) ["o"] ["n"]
          [(["o"], .dir), (["o", "s"], .dir), (["n"], .dir)] =
        ⟨false, removeAll ["o"]
          (step1 ["n"] [(["o"], .dir), (["o", "s"], .dir), (["n"], .dir)])⟩ ∧
      ∀ q : Path, ["n"] <+: q →
        lookup (removeAll ["o"]
            (step1 ["n"] [(["o"], .dir), (["o", "s"], .dir), (["n"], .dir)])) q =
          lookup [(["o"], Entry.dir), (["o", "s"], Entry.dir), (["n"], Entry.dir)] q) :=
  ⟨(Upgrade_trivial_cases toyCodec (fun _ => true) ["o"] ["n"] [] (by decide)).1
      (by decide),
   (Upgrade_trivial_cases toyCodec (fun _ => true) ["o"] ["n"] [(["o"], .dir)]
      (by decide)).2.1 (by decide) (by decide),
   (Upgrade_trivial_cases toyCodec (fun _ => true) ["o"] ["n"]
      [(["o"], .dir), (["o", "s"], .dir), (["n"], .dir)] (by decide)).2.2
      (by decide) (by decide) (by decide)⟩

/-- C7: an existing, non-empty old root in which the enumeration finds no
decodable legacy metadata record makes `Upgrade` return an error rather
than success, and no new root is created. -/
theorem Upgrade_no_records (codec : GzipCodec) (isValid : List Nat → Bool)
    (old new : Path) (fs : Fs) (hroots : rootsOk old new)
    (h1 : dirExists (step1 new fs) old = true)
    (h2 : dirIsEmpty (step1 new fs) old = false)
    (h3 : dirExists (step1 new fs) new = false)
    (hrec : getNewest7Snapshot (step1 new fs) old = .ok none) :
    (Upgrade codec isValid old new fs).err = true ∧
    dirExists (Upgrade codec isValid old new fs).fs new = false := by
  obtain ⟨hne, honw, hnwo, hot, hto, hnt, htn⟩ := rootsOk_spec hroots
  have hG : getNewest7Snapshot (mkdirAll (tmpName new) (step1 new fs)) old =
      .ok none := by
    rw [getNewest_mkdirAll (step1 new fs) hot, hrec]
  have hred : Upgrade codec isValid old new fs =
      ⟨true, mkdirAll (tmpName new) (step1 new fs)⟩ := by
    simp only [Upgrade, h1, h2, h3, hG]
    simp
  rw [hred]
  refine ⟨rfl, ?_⟩
  unfold dirExists at h3 ⊢
  rw [lookup_mkdirAll_outside _ hnt]
  exact h3

/-- C7 witness: a concrete old root holding only a stray file, so the
enumeration finds no subdirectory with a metadata file. -/
theorem Upgrade_no_records_witness :
    (Upgrade toyCodec (fun _ => true) ["o"] ["n"]
        [(["o"], .dir), (["o", "junk"], .file (.bytes []))]).err = true ∧
    dirExists (Upgrade toyCodec (fun _ => true) ["o"] ["n"]
        [(["o"], .dir), (["o", "junk"], .file (.bytes []))]).fs ["n"] = false :=
  Upgrade_no_records toyCodec (fun _ => true) ["o"] ["n"]
    [(["o"], .dir), (["o", "junk"], .file (.bytes []))]
    (by decide) (by decide) (by decide) (by decide) rfl

/-- C8: under the construction preconditions, `Upgrade` writes the
new-format metadata file carrying the whole selected legacy record and the
`Full` marker, and a base state file holding the decompression of the
legacy state blob minus its 16-byte header — both visible under the new
root on success — and a failed validity check aborts with an error before
any new root exists. -/
theorem Upgrade_construction (codec : GzipCodec) (isValid : List Nat → Bool)
    (old new : Path) (fs : Fs) (m : SnapshotMeta) (b d : List Nat)
    (hroots : rootsOk old new)
    (hnosub : noKeysUnder new (step1 new fs))
    (h1 : dirExists (step1 new fs) old = true)
    (h2 : dirIsEmpty (step1 new fs) old = false)
    (hrec : getNewest7Snapshot (step1 new fs) old = .ok (some m))
    (hblob : lookup (step1 new fs) (old ++ [m.ID, v7StateFile]) =
      some (.file (.bytes b)))
    (hdec : codec.decompress (b.drop 16) = .ok d) :
    (isValid d = true →
      (Upgrade codec isValid old new fs).err = false ∧
      lookup (Upgrade codec isValid old new fs).fs
          (new ++ [generationsDir, firstGeneration, m.ID, metaFileName]) =
        some (.file (.newMeta ⟨m, true⟩)) ∧
      lookup (Upgrade codec isValid old new fs).fs
          (new ++ [generationsDir, firstGeneration, baseSqliteFile]) =
        some (.file (.bytes d))) ∧
    (isValid d = false →
      (Upgrade codec isValid old new fs).err = true ∧
      dirExists (Upgrade codec isValid old new fs).fs new = false) := by
  obtain ⟨hne, honw, hnwo, hot, hto, hnt, htn⟩ := rootsOk_spec hroots
  have hnET : ∀ L : List String, ¬ new <+: tmpName new ++ L := by
    intro L hc
    rcases prefix_of_append_cases hc with h | h
    · exact hnt h
    · exact htn h
  have hone : ∀ qs L : List String, old ++ qs ≠ tmpName new ++ L := by
    intro qs L hc
    have hp : old <+: tmpName new ++ L := by
      rw [← hc]
      exact List.prefix_append old qs
    rcases prefix_of_append_cases hp with h | h
    · exact hot h
    · exact hto h
  have honp : ∀ qs L : List String, ¬ (old ++ qs <+: tmpName new ++ L) := by
    intro qs L hc
    have hp : old <+: tmpName new ++ L := (List.prefix_append old qs).trans hc
    rcases prefix_of_append_cases hp with h | h
    · exact hot h
    · exact hto h
  have honpt : ∀ qs : List String, ¬ (old ++ qs <+: tmpName new) := by
    intro qs hc
    exact hot ((List.prefix_append old qs).trans hc)
  have h3 : dirExists (step1 new fs) new = false := by
    unfold dirExists
    rw [noKeysUnder_lookup hnosub]
    rfl
  have hG1 : getNewest7Snapshot (mkdirAll (tmpName new) (step1 new fs)) old =
      .ok (some m) := by
    rw [getNewest_mkdirAll (step1 new fs) hot, hrec]
  -- the filesystem after the construction writes, in flattened-path form
  have hno2 : noKeysUnder new
      (mkdirAll (tmpName new ++ [generationsDir, firstGeneration, m.ID])
        (mkdirAll (tmpName new) (step1 new fs))) :=
    noKeysUnder_mkdirAll (noKeysUnder_mkdirAll hnosub hnt) (hnET _)
  have hno4 : noKeysUnder new
      (writeFile (tmpName new ++ [generationsDir, firstGeneration, baseSqliteFile])
        (.bytes [])
        (writeFile (tmpName new ++ [generationsDir, firstGeneration, m.ID, metaFileName])
          (.newMeta ⟨m, true⟩)
          (mkdirAll (tmpName new ++ [generationsDir, firstGeneration, m.ID])
            (mkdirAll (tmpName new) (step1 new fs))))) :=
    noKeysUnder_writeFile (noKeysUnder_writeFile hno2 (hnET _)) (hnET _)
  have hno5 : noKeysUnder new
      (writeFile (tmpName new ++ [generationsDir, firstGeneration, baseSqliteFile])
        (.bytes d)
        (writeFile (tmpName new ++ [generationsDir, firstGeneration, baseSqliteFile])
          (.bytes [])
          (writeFile (tmpName new ++ [generationsDir, firstGeneration, m.ID, metaFileName])
            (.newMeta ⟨m, true⟩)
            (mkdirAll (tmpName new ++ [generationsDir, firstGeneration, m.ID])
              (mkdirAll (tmpName new) (step1 new fs)))))) :=
    noKeysUnder_writeFile hno4 (hnET _)
  have hlook4 : lookup
      (writeFile (tmpName new ++ [generationsDir, firstGeneration, baseSqliteFile])
        (.bytes [])
        (writeFile (tmpName new ++ [generationsDir, firstGeneration, m.ID, metaFileName])
          (.newMeta ⟨m, true⟩)
          (mkdirAll (tmpName new ++ [generationsDir, firstGeneration, m.ID])
            (mkdirAll (tmpName new) (step1 new fs)))))
      (old ++ [m.ID, v7StateFile]) = some (.file (.bytes b)) := by
    rw [lookup_writeFile_ne (hone [m.ID, v7StateFile] _),
      lookup_writeFile_ne (hone [m.ID, v7StateFile] _),
      lookup_mkdirAll_outside _ (honp [m.ID, v7StateFile] _),
      lookup_mkdirAll_outside _ (honpt [m.ID, v7StateFile])]
    exact hblob
  have hnone5 : lookup
      (writeFile (tmpName new ++ [generationsDir, firstGeneration, baseSqliteFile])
        (.bytes d)
        (writeFile (tmpName new ++ [generationsDir, firstGeneration, baseSqliteFile])
          (.bytes [])
          (writeFile (tmpName new ++ [generationsDir, firstGeneration, m.ID, metaFileName])
            (.newMeta ⟨m, true⟩)
            (mkdirAll (tmpName new ++ [generationsDir, firstGeneration, m.ID])
              (mkdirAll (tmpName new) (step1 new fs)))))) new = none :=
    noKeysUnder_lookup hno5
  constructor
  · intro hv
    have hred : Upgrade codec isValid old new fs =
        ⟨false, removeAll old (move (tmpName new) new
          (writeFile (tmpName new ++ [generationsDir, firstGeneration, baseSqliteFile])
            (.bytes d)
            (writeFile (tmpName new ++ [generationsDir, firstGeneration, baseSqliteFile])
              (.bytes [])
              (writeFile (tmpName new ++ [generationsDir, firstGeneration, m.ID, metaFileName])
                (.newMeta ⟨m, true⟩)
                (mkdirAll (tmpName new ++ [generationsDir, firstGeneration, m.ID])
                  (mkdirAll (tmpName new) (step1 new fs)))))))⟩ := by
      simp only [Upgrade, writeMeta, List.append_assoc, List.cons_append,
        List.nil_append, h1, h2, h3, hG1, hlook4, hdec, hv, hnone5]
      simp
    rw [hred]
    have hmove : ∀ e ∈ (writeFile (tmpName new ++ [generationsDir, firstGeneration, baseSqliteFile])
        (.bytes d)
        (writeFile (tmpName new ++ [generationsDir, firstGeneration, baseSqliteFile])
          (.bytes [])
          (writeFile (tmpName new ++ [generationsDir, firstGeneration, m.ID, metaFileName])
            (.newMeta ⟨m, true⟩)
            (mkdirAll (tmpName new ++ [generationsDir, firstGeneration, m.ID])
              (mkdirAll (tmpName new) (step1 new fs)))))), ¬ new <+: e.1 := hno5
    refine ⟨rfl, ?_, ?_⟩
    · rw [lookup_removeAll_of_not _ (fun hc => by
        rcases prefix_of_append_cases hc with h | h
        · exact honw h
        · exact hnwo h)]
      rw [lookup_move_transfer _ _ _ _ hmove]
      rw [lookup_writeFile_ne (by
          intro hc
          have := congrArg List.length hc
          simp at this),
        lookup_writeFile_ne (by
          intro hc
          have := congrArg List.length hc
          simp at this),
        lookup_writeFile_self]
    · rw [lookup_removeAll_of_not _ (fun hc => by
        rcases prefix_of_append_cases hc with h | h
        · exact honw h
        · exact hnwo h)]
      rw [lookup_move_transfer _ _ _ _ hmove]
      rw [lookup_writeFile_self]
  · intro hv
    have hred : Upgrade codec isValid old new fs =
        ⟨true,
          writeFile (tmpName new ++ [generationsDir, firstGeneration, baseSqliteFile])
            (.bytes d)
            (writeFile (tmpName new ++ [generationsDir, firstGeneration, baseSqliteFile])
              (.bytes [])
              (writeFile (tmpName new ++ [generationsDir, firstGeneration, m.ID, metaFileName])
                (.newMeta ⟨m, true⟩)
                (mkdirAll (tmpName new ++ [generationsDir, firstGeneration, m.ID])
                  (mkdirAll (tmpName new) (step1 new fs)))))⟩ := by
      simp only [Upgrade, writeMeta, List.append_assoc, List.cons_append,
        List.nil_append, h1, h2, h3, hG1, hlook4, hdec, hv]
      simp
    rw [hred]
    refine ⟨rfl, ?_⟩
    unfold dirExists
    rw [hnone5]
    rfl

/-- C8 witness: a concrete legacy root with one snapshot whose state blob
is 16 header bytes followed by a compressed payload `[7]`, upgraded once
with a passing validity check and once with a failing one. -/
theorem Upgrade_construction_witness :
    ((Upgrade toyCodec (fun _ => true) ["o"] ["n"]
        [(["o"], .dir), (["o", "s1"], .dir),
         (["o", "s1", "meta.json"], .file (.legacyMeta ⟨1, 1, "s1"⟩)),
         (["o", "s1", "state.bin"],
          .file (.bytes (List.replicate 16 0 ++ [31, 139, 8, 7])))]).err = false ∧
      lookup (Upgrade toyCodec (fun _ => true) ["o"] ["n"]
          [(["o"], .dir), (["o", "s1"], .dir),
           (["o", "s1", "meta.json"], .file (.legacyMeta ⟨1, 1, "s1"⟩)),
           (["o", "s1", "state.bin"],
            .file (.bytes (List.replicate 16 0 ++ [31, 139, 8, 7])))]).fs
          (["n"] ++ [generationsDir, firstGeneration, "s1", metaFileName]) =
        some (.file (.newMeta ⟨⟨1, 1, "s1"⟩, true⟩)) ∧
      lookup (Upgrade toyCodec (fun _ => true) ["o"] ["n"]
          [(["o"], .dir), (["o", "s1"], .dir),
           (["o", "s1", "meta.json"], .file (.legacyMeta ⟨1, 1, "s1"⟩)),
           (["o", "s1", "state.bin"],
            .file (.bytes (List.replicate 16 0 ++ [31, 139, 8, 7])))]).fs
          (["n"] ++ [generationsDir, firstGeneration, baseSqliteFile]) =
        some (.file (.bytes [7]))) ∧
    ((Upgrade toyCodec (fun _ => false) ["o"] ["n"]
        [(["o"], .dir), (["o", "s1"], .dir),
         (["o", "s1", "meta.json"], .file (.legacyMeta ⟨1, 1, "s1"⟩)),
         (["o", "s1", "state.bin"],
          .file (.bytes (List.replicate 16 0 ++ [31, 139, 8, 7])))]).err = true ∧
      dirExists (Upgrade toyCodec (fun _ => false) ["o"] ["n"]
          [(["o"], .dir), (["o", "s1"], .dir),
           (["o", "s1", "meta.json"], .file (.legacyMeta ⟨1, 1, "s1"⟩)),
           (["o", "s1", "state.bin"],
            .file (.bytes (List.replicate 16 0 ++ [31, 139, 8, 7])))]).fs
          ["n"] = false) :=
  ⟨(Upgrade_construction toyCodec (fun _ => true) ["o"] ["n"]
      [(["o"], .dir), (["o", "s1"], .dir),
       (["o", "s1", "meta.json"], .file (.legacyMeta ⟨1, 1, "s1"⟩)),
       (["o", "s1", "state.bin"],
        .file (.bytes (List.replicate 16 0 ++ [31, 139, 8, 7])))]
      ⟨1, 1, "s1"⟩ (List.replicate 16 0 ++ [31, 139, 8, 7]) [7]
      (by decide) (by decide) (by decide) (by decide) (by decide) (by decide) (by decide)).1 rfl,
   (Upgrade_construction toyCodec (fun _ => false) ["o"] ["n"]
      [(["o"], .dir), (["o", "s1"], .dir),
       (["o", "s1", "meta.json"], .file (.legacyMeta ⟨1, 1, "s1"⟩)),
       (["o", "s1", "state.bin"],
        .file (.bytes (List.replicate 16 0 ++ [31, 139, 8, 7])))]
      ⟨1, 1, "s1"⟩ (List.replicate 16 0 ++ [31, 139, 8, 7]) [7]
      (by decide) (by decide) (by decide) (by decide) (by decide) (by decide) (by decide)).2 rfl⟩

/-- C1: any `Upgrade` error (all modelled errors precede the commit
rename) leaves every path outside the temporary root exactly as it was —
in particular the whole old root subtree — and creates no new root; and a
call that finds a leftover temporary root behaves exactly as if it had
removed it before doing anything else. -/
theorem Upgrade_error_frame (codec : GzipCodec) (isValid : List Nat → Bool)
    (old new : Path) (fs : Fs)
    (hroots : rootsOk old new)
    (hparents : ∀ q ∈ (tmpName new).inits, q ≠ [] → q ≠ tmpName new →
      lookup fs q ≠ none)
    (herr : (Upgrade codec isValid old new fs).err = true) :
    (∀ q : Path, ¬ tmpName new <+: q →
      lookup (Upgrade codec isValid old new fs).fs q = lookup fs q) ∧
    (∀ q : Path, old <+: q →
      lookup (Upgrade codec isValid old new fs).fs q = lookup fs q) ∧
    dirExists (Upgrade codec isValid old new fs).fs new = false ∧
    (dirExists fs (tmpName new) = true →
      Upgrade codec isValid old new fs =
        Upgrade codec isValid old new (removeAll (tmpName new) fs)) := by
  obtain ⟨hne, honw, hnwo, hot, hto, hnt, htn⟩ := rootsOk_spec hroots
  have hclean : dirExists fs (tmpName new) = true →
      Upgrade codec isValid old new fs =
        Upgrade codec isValid old new (removeAll (tmpName new) fs) := by
    intro hd
    have hd2 : dirExists (removeAll (tmpName new) fs) (tmpName new) = false := by
      unfold dirExists
      rw [lookup_removeAll_under fs List.prefix_rfl]
      rfl
    have hstep : step1 new fs = step1 new (removeAll (tmpName new) fs) := by
      unfold step1
      rw [hd, hd2]
      simp
    unfold Upgrade
    rw [hstep]
  -- frame of the temporary-root creation, using that all proper parents of
  -- the temporary root already exist
  have hfs1 : ∀ q : Path, ¬ tmpName new <+: q →
      lookup (mkdirAll (tmpName new) (step1 new fs)) q = lookup fs q := by
    intro q hq
    have hstep : lookup (mkdirAll (tmpName new) (step1 new fs)) q =
        lookup (step1 new fs) q := by
      refine lookup_mkdirAll_eq_of_keys _ (fun k hpre hnil hnone hk => ?_)
      rw [hk] at hpre hnil hnone
      have hqt : q ≠ tmpName new := fun hc => hq (hc ▸ List.prefix_rfl)
      have := hparents q ((List.mem_inits _ _).2 hpre) hnil hqt
      rw [lookup_step1 fs hq] at hnone
      exact this hnone
    rw [hstep, lookup_step1 fs hq]
  have hfs2 : ∀ (mID : String) (q : Path), ¬ tmpName new <+: q →
      lookup (mkdirAll (tmpName new ++ [generationsDir, firstGeneration, mID])
        (mkdirAll (tmpName new) (step1 new fs))) q = lookup fs q := by
    intro mID q hq
    have hstep : lookup (mkdirAll (tmpName new ++ [generationsDir, firstGeneration, mID])
        (mkdirAll (tmpName new) (step1 new fs))) q =
        lookup (mkdirAll (tmpName new) (step1 new fs)) q := by
      refine lookup_mkdirAll_eq_of_keys _ (fun k hpre hnil hnone hk => ?_)
      rw [hk] at hpre hnil hnone
      rcases prefix_of_append_cases hpre with hc | hc
      · have hqt : q ≠ tmpName new := fun h2 => hq (h2 ▸ List.prefix_rfl)
        have := hparents q ((List.mem_inits _ _).2 hc) hnil hqt
        rw [hfs1 q hq] at hnone
        exact this hnone
      · exact hq hc
    rw [hstep, hfs1 q hq]
  have hwrite : ∀ (L : List String) (dd : FileData) (X : Fs),
      (∀ q : Path, ¬ tmpName new <+: q → lookup X q = lookup fs q) →
      ∀ q : Path, ¬ tmpName new <+: q →
        lookup (writeFile (tmpName new ++ L) dd X) q = lookup fs q := by
    intro L dd X hX q hq
    rw [lookup_writeFile_ne (fun hc => hq (by rw [hc]; exact List.prefix_append _ _)),
      hX q hq]
  obtain ⟨X, hred, hframe, hnewfs⟩ : ∃ X : Fs,
      Upgrade codec isValid old new fs = ⟨true, X⟩ ∧
      (∀ q : Path, ¬ tmpName new <+: q → lookup X q = lookup fs q) ∧
      dirExists fs new = false := by
    by_cases hA : dirExists (step1 new fs) old = true
    · by_cases hE : dirIsEmpty (step1 new fs) old = true
      · have hr : Upgrade codec isValid old new fs = ⟨false, removeAll old (step1 new fs)⟩ := by
          simp only [Upgrade, hA, hE]
          simp
        rw [hr] at herr
        simp at herr
      · by_cases hN : dirExists (step1 new fs) new = true
        · have hr : Upgrade codec isValid old new fs =
              ⟨false, removeAll old (step1 new fs)⟩ := by
            simp only [Upgrade, hA, eq_false_of_ne_true hE, hN]
            simp
          rw [hr] at herr
          simp at herr
        · have hE2 := eq_false_of_ne_true hE
          have hN2 := eq_false_of_ne_true hN
          have hnewfs : dirExists fs new = false := by
            unfold dirExists at hN2 ⊢
            rw [lookup_step1 fs htn] at hN2
            exact hN2
          rcases hG : getNewest7Snapshot (mkdirAll (tmpName new) (step1 new fs)) old
            with u | o
          · refine ⟨mkdirAll (tmpName new) (step1 new fs), ?_, hfs1, hnewfs⟩
            simp only [Upgrade, hA, hE2, hN2, hG]
            simp
          · cases o with
            | none =>
              refine ⟨mkdirAll (tmpName new) (step1 new fs), ?_, hfs1, hnewfs⟩
              simp only [Upgrade, hA, hE2, hN2, hG]
              simp
            | some m =>
              have hfs4 : ∀ q : Path, ¬ tmpName new <+: q →
                  lookup (writeFile
                    (tmpName new ++ [generationsDir, firstGeneration, baseSqliteFile])
                    (.bytes [])
                    (writeFile
                      (tmpName new ++ [generationsDir, firstGeneration, m.ID, metaFileName])
                      (.newMeta ⟨m, true⟩)
                      (mkdirAll (tmpName new ++ [generationsDir, firstGeneration, m.ID])
                        (mkdirAll (tmpName new) (step1 new fs))))) q = lookup fs q :=
                hwrite _ _ _ (hwrite _ _ _ (hfs2 m.ID))
              rcases hL : lookup (writeFile
                  (tmpName new ++ [generationsDir, firstGeneration, baseSqliteFile])
                  (.bytes [])
                  (writeFile
                    (tmpName new ++ [generationsDir, firstGeneration, m.ID, metaFileName])
                    (.newMeta ⟨m, true⟩)
                    (mkdirAll (tmpName new ++ [generationsDir, firstGeneration, m.ID])
                      (mkdirAll (tmpName new) (step1 new fs)))))
                  (old ++ [m.ID, v7StateFile]) with _ | entry
              · refine ⟨_, ?_, hfs4, hnewfs⟩
                simp only [Upgrade, writeMeta, List.append_assoc, List.cons_append,
                  List.nil_append, hA, hE2, hN2, hG, hL]
                simp
              · cases entry with
                | dir =>
                  refine ⟨_, ?_, hfs4, hnewfs⟩
                  simp only [Upgrade, writeMeta, List.append_assoc, List.cons_append,
                    List.nil_append, hA, hE2, hN2, hG, hL]
                  simp
                | file fd =>
                  cases fd with
                  | legacyMeta lm =>
                    refine ⟨_, ?_, hfs4, hnewfs⟩
                    simp only [Upgrade, writeMeta, List.append_assoc, List.cons_append,
                      List.nil_append, hA, hE2, hN2, hG, hL]
                    simp
                  | newMeta nm =>
                    refine ⟨_, ?_, hfs4, hnewfs⟩
                    simp only [Upgrade, writeMeta, List.append_assoc, List.cons_append,
                      List.nil_append, hA, hE2, hN2, hG, hL]
                    simp
                  | bytes b =>
                    rcases hD : codec.decompress (b.drop 16) with pfx | d
                    · refine ⟨_, ?_,
                        hwrite [generationsDir, firstGeneration, baseSqliteFile]
                          (.bytes pfx) _ hfs4, hnewfs⟩
                      simp only [Upgrade, writeMeta, List.append_assoc, List.cons_append,
                        List.nil_append, hA, hE2, hN2, hG, hL, hD]
                      simp
                    · by_cases hV : isValid d = true
                      · by_cases hNone : (lookup (writeFile
                            (tmpName new ++ [generationsDir, firstGeneration, baseSqliteFile])
                            (.bytes d)
                            (writeFile
                              (tmpName new ++ [generationsDir, firstGeneration, baseSqliteFile])
                              (.bytes [])
                              (writeFile
                                (tmpName new ++
                                  [generationsDir, firstGeneration, m.ID, metaFileName])
                                (.newMeta ⟨m, true⟩)
                                (mkdirAll
                                  (tmpName new ++ [generationsDir, firstGeneration, m.ID])
                                  (mkdirAll (tmpName new) (step1 new fs)))))) new).isNone = true
                        · have hr : Upgrade codec isValid old new fs =
                              ⟨false, removeAll old (move (tmpName new) new
                                (writeFile
                                  (tmpName new ++
                                    [generationsDir, firstGeneration, baseSqliteFile])
                                  (.bytes d)
                                  (writeFile
                                    (tmpName new ++
                                      [generationsDir, firstGeneration, baseSqliteFile])
                                    (.bytes [])
                                    (writeFile
                                      (tmpName new ++
                                        [generationsDir, firstGeneration, m.ID, metaFileName])
                                      (.newMeta ⟨m, true⟩)
                                      (mkdirAll
                                        (tmpName new ++
                                          [generationsDir, firstGeneration, m.ID])
                                        (mkdirAll (tmpName new) (step1 new fs)))))))⟩ := by
                            simp only [Upgrade, writeMeta, List.append_assoc,
                              List.cons_append, List.nil_append, hA, hE2, hN2, hG, hL, hD,
                              hV, hNone]
                            simp
                          rw [hr] at herr
                          simp at herr
                        · refine ⟨_, ?_,
                            hwrite [generationsDir, firstGeneration, baseSqliteFile]
                              (.bytes d) _ hfs4, hnewfs⟩
                          simp only [Upgrade, writeMeta, List.append_assoc,
                            List.cons_append, List.nil_append, hA, hE2, hN2, hG, hL, hD,
                            hV, eq_false_of_ne_true hNone]
                          simp
                      · refine ⟨_, ?_,
                          hwrite [generationsDir, firstGeneration, baseSqliteFile]
                            (.bytes d) _ hfs4, hnewfs⟩
                        simp only [Upgrade, writeMeta, List.append_assoc, List.cons_append,
                          List.nil_append, hA, hE2, hN2, hG, hL, hD,
                          eq_false_of_ne_true hV]
                        simp
    · have hr : Upgrade codec isValid old new fs = ⟨false, step1 new fs⟩ := by
        simp only [Upgrade, eq_false_of_ne_true hA]
        simp
      rw [hr] at herr
      simp at herr
  refine ⟨?_, ?_, ?_, hclean⟩
  · intro q hq
    rw [hred]
    exact hframe q hq
  · intro q hq
    rw [hred]
    refine hframe q (fun hc => ?_)
    rcases prefixComparable hq hc with h | h
    · exact hot h
    · exact hto h
  · rw [hred]
    unfold dirExists at hnewfs ⊢
    rw [hframe new htn]
    exact hnewfs

/-- C1 witness: a concrete failing upgrade (old root present but holding
no legacy snapshot) on a filesystem whose temporary-root parents exist. -/
theorem Upgrade_error_frame_witness :
    (∀ q : Path, ¬ tmpName ["n"] <+: q →
      lookup (Upgrade toyCodec (fun _ => true) ["o"] ["n"]
          [(["o"], .dir), (["o", "junk"], .file (.bytes []))]).fs q =
        lookup [(["o"], Entry.dir), (["o", "junk"], Entry.file (.bytes []))] q) ∧
    (∀ q : Path, ["o"] <+: q →
      lookup (Upgrade toyCodec (fun _ => true) ["o"] ["n"]
          [(["o"], .dir), (["o", "junk"], .file (.bytes []))]).fs q =
        lookup [(["o"], Entry.dir), (["o", "junk"], Entry.file (.bytes []))] q) ∧
    dirExists (Upgrade toyCodec (fun _ => true) ["o"] ["n"]
        [(["o"], .dir), (["o", "junk"], .file (.bytes []))]).fs ["n"] = false ∧
    (dirExists [(["o"], Entry.dir), (["o", "junk"], Entry.file (.bytes []))]
        (tmpName ["n"]) = true →
      Upgrade toyCodec (fun _ => true) ["o"] ["n"]
          [(["o"], .dir), (["o", "junk"], .file (.bytes []))] =
        Upgrade toyCodec (fun _ => true) ["o"] ["n"]
          (removeAll (tmpName ["n"])
            [(["o"], Entry.dir), (["o", "junk"], Entry.file (.bytes []))])) :=
  Upgrade_error_frame toyCodec (fun _ => true) ["o"] ["n"]
    [(["o"], .dir), (["o", "junk"], .file (.bytes []))]
    (by decide) (by decide) (by decide)

end Snapshot

end Rqlite
